import Mathlib

/-!
Verification of the record persistence and reconciliation logic of the
student-registration app (`w.py`): the record store (`read_records`,
`write_records`), the reconciler inside `main_app`'s form handler
(validation, edit-vs-create disambiguation, identifier and timestamp
assignment), deletion, and the export adapter (`export_to_excel_bytes`).

The app persists each school's records as newline-delimited JSON, one
string-valued object per line.  Records are modelled as the ordered
key/value pair list of the Python dict; `json.dump(r, f, ensure_ascii=False)`
and `json.loads(line)` are modelled at the character level, restricted to
the string-valued-object fragment the app writes.  The filesystem is
modelled by the two paths `write_records` touches (the target file and its
`.tmp` sibling); the wall clock is a parameter of each operation
(`isoNow` for `datetime.now().isoformat()`, `epochNow` for
`int(time.time())`).
-/

set_option linter.unusedVariables false

namespace W

/-- A student record as stored by the app: a JSON object whose values are all
strings (every field the app writes is a string), modelled as the ordered
list of key/value pairs of the Python dict. -/
abbrev Record := List (String × String)

/-- `rec.get(k)` on the underlying dict: the value of the first pair whose key
is `k`, or `none` when the key is absent. -/
def getField (r : Record) (k : String) : Option String :=
  (r.find? (fun p => p.1 == k)).map (fun p => p.2)

/-- Python `str(x)` applied to the result of `rec.get(k)`: `None` prints as
the four-character string `None`. -/
def pyStr : Option String → String
  | none => "None"
  | some s => s

/-- The ASCII whitespace characters Python's `str.strip()` removes (the app's
data never contains the rarer Unicode space characters). -/
def isPySpace (c : Char) : Bool :=
  c == ' ' || c == '\t' || c == '\n' || c == '\r' || c == '\x0b' || c == '\x0c'

/-- Python `s.strip()` at the character level. -/
def stripChars (l : List Char) : List Char :=
  ((l.dropWhile isPySpace).reverse.dropWhile isPySpace).reverse

/-- Python `s.strip()` on strings. -/
def pstrip (s : String) : String := ⟨stripChars s.data⟩

/-- One lowercase hexadecimal digit, as Python's `%04x` formatting emits. -/
def hexDigit (n : Nat) : Char :=
  if n < 10 then Char.ofNat (48 + n) else Char.ofNat (87 + n)

/-- `json.dump`'s escaping of one character inside a string literal.  With
`ensure_ascii=False` only the backslash, the double quote and the control
characters below `0x20` are escaped; everything else is written raw. -/
def escChar (c : Char) : List Char :=
  if c = '\\' then ['\\', '\\']
  else if c = '"' then ['\\', '"']
  else if c = '\x08' then ['\\', 'b']
  else if c = '\x0c' then ['\\', 'f']
  else if c = '\n' then ['\\', 'n']
  else if c = '\r' then ['\\', 'r']
  else if c = '\t' then ['\\', 't']
  else if c.toNat < 32 then
    ['\\', 'u', '0', '0', hexDigit (c.toNat / 16), hexDigit (c.toNat % 16)]
  else [c]

/-- Escape a whole string body. -/
def escStr (s : List Char) : List Char := (s.map escChar).flatten

/-- A JSON string literal. -/
def quoteStr (s : String) : List Char := '"' :: escStr s.data ++ ['"']

/-- One `key: value` member with `json.dump`'s default key separator
(a colon followed by one space). -/
def serPair (p : String × String) : List Char :=
  quoteStr p.1 ++ ':' :: ' ' :: quoteStr p.2

/-- Object members joined by `json.dump`'s default item separator
(a comma followed by one space). -/
def serMembers : List (String × String) → List Char
  | [] => []
  | [p] => serPair p
  | p :: q :: ps => serPair p ++ ',' :: ' ' :: serMembers (q :: ps)

/-- `json.dump(r, f, ensure_ascii=False)` for one string-valued dict. -/
def serObj (r : Record) : List Char := '{' :: serMembers r ++ ['}']

/-- The inter-token whitespace `json.loads` accepts. -/
def isJsonWs (c : Char) : Bool :=
  c == ' ' || c == '\t' || c == '\n' || c == '\r'

/-- Drop leading JSON whitespace. -/
def skipWs (l : List Char) : List Char := l.dropWhile isJsonWs

/-- One hexadecimal digit of a `\uXXXX` escape. -/
def parseHexDigit (c : Char) : Option Nat :=
  if '0' ≤ c ∧ c ≤ '9' then some (c.toNat - 48)
  else if 'a' ≤ c ∧ c ≤ 'f' then some (c.toNat - 87)
  else if 'A' ≤ c ∧ c ≤ 'F' then some (c.toNat - 55)
  else none

/-- The body of a JSON string literal, after the opening quote: returns the
decoded characters and the input following the closing quote.  Strict mode,
as `json.loads` defaults to: a raw control character inside the literal is
rejected. -/
def parseStrBody (acc : List Char) : List Char → Option (List Char × List Char)
  | [] => none
  | c :: rest =>
    if c = '"' then some (acc.reverse, rest)
    else if c = '\\' then
      match rest with
      | [] => none
      | e :: r =>
        if e = '"' then parseStrBody ('"' :: acc) r
        else if e = '\\' then parseStrBody ('\\' :: acc) r
        else if e = '/' then parseStrBody ('/' :: acc) r
        else if e = 'b' then parseStrBody ('\x08' :: acc) r
        else if e = 'f' then parseStrBody ('\x0c' :: acc) r
        else if e = 'n' then parseStrBody ('\n' :: acc) r
        else if e = 'r' then parseStrBody ('\r' :: acc) r
        else if e = 't' then parseStrBody ('\t' :: acc) r
        else if e = 'u' then
          match r with
          | h1 :: h2 :: h3 :: h4 :: r2 =>
            match parseHexDigit h1, parseHexDigit h2, parseHexDigit h3, parseHexDigit h4 with
            | some a, some b, some c2, some d =>
              parseStrBody (Char.ofNat (((a * 16 + b) * 16 + c2) * 16 + d) :: acc) r2
            | _, _, _, _ => none
          | _ => none
        else none
    else if c.toNat < 32 then none
    else parseStrBody (c :: acc) rest

/-- A JSON string literal: an opening quote followed by a body. -/
def parseJString : List Char → Option (List Char × List Char)
  | [] => none
  | c :: rest => if c = '"' then parseStrBody [] rest else none

/-- The members of a nonempty JSON object, by recursive descent.  `fuel`
bounds the number of members; any value above the input length suffices,
since every member consumes at least one character. -/
def parsePairsAux : Nat → List Char → Option (Record × List Char)
  | 0, _ => none
  | fuel + 1, input =>
    match parseJString input with
    | none => none
    | some (k, r1) =>
      match skipWs r1 with
      | ':' :: r3 =>
        match parseJString (skipWs r3) with
        | none => none
        | some (v, r5) =>
          match skipWs r5 with
          | '}' :: r7 => some ([(⟨k⟩, ⟨v⟩)], r7)
          | ',' :: r7 =>
            match parsePairsAux fuel (skipWs r7) with
            | none => none
            | some (ps, r9) => some ((⟨k⟩, ⟨v⟩) :: ps, r9)
          | _ => none
      | _ => none

/-- A JSON object of string members, as `json.loads` reads the lines this app
writes; returns the parsed pairs and the remaining input. -/
def parseObj (input : List Char) : Option (Record × List Char) :=
  match skipWs input with
  | '{' :: r =>
    match skipWs r with
    | '}' :: r2 => some ([], r2)
    | r1 => parsePairsAux (r1.length + 1) r1
  | _ => none

/-- `json.loads(line)` restricted to the string-valued objects this app ever
writes: the whole line must be one object with only whitespace around it. -/
def jsonLoads (l : List Char) : Option Record :=
  match parseObj l with
  | some (r, rest) => if skipWs rest = [] then some r else none
  | none => none

/-- Text-mode line iteration: split the file content at newline characters. -/
def splitNl : List Char → List (List Char)
  | [] => [[]]
  | c :: rest =>
    if c = '\n' then [] :: splitNl rest
    else
      match splitNl rest with
      | [] => [[c]]
      | l :: ls => (c :: l) :: ls

/-- The loop of `read_records`: strip each line, skip blank lines, parse the
rest, silently skipping every line that fails to parse. -/
def readContent (cs : List Char) : List Record :=
  (splitNl cs).filterMap (fun l =>
    let s := stripChars l
    if s = [] then none else jsonLoads s)

/-- The two paths `write_records` touches: the target file and the `.tmp`
file beside it in the same directory; `none` means the path does not exist. -/
structure FS where
  final : Option (List Char)
  tmp : Option (List Char)
deriving DecidableEq

/-- `read_records(filepath)`: a missing file yields the empty list, an
existing one is read line by line. -/
def read_records : Option (List Char) → List Record
  | none => []
  | some cs => readContent cs

/-- The file content `write_records` produces: one JSON object per line, each
line terminated by a newline. -/
def serializeRecords (rs : List Record) : List Char :=
  (rs.map (fun r => serObj r ++ ['\n'])).flatten

/-- `write_records(filepath, records)` run to completion: the serialized set
is at the target path and the temp file is gone (renamed over the target). -/
def write_records (rs : List Record) : FS :=
  ⟨some (serializeRecords rs), none⟩

/-- Every on-disk state `write_records` passes through, at byte granularity
(so any flush boundary is covered): the temp file holds successive prefixes
of the new content while the target is untouched, and finally `os.replace`
atomically moves the temp file over the target. -/
def writeStates (fs : FS) (rs : List Record) : List FS :=
  ((List.range (serializeRecords rs).length.succ).map
    (fun k => ⟨fs.final, some ((serializeRecords rs).take k)⟩)) ++ [write_records rs]

/-- The form inputs of the entry form (`entry_form` in `main_app`), as the
user submitted them, before any trimming. -/
structure FormInput where
  registry_number : String
  last_name : String
  first_name : String
  father_name : String
  sibling_school : String
  notes : String
  street : String
  street_number : String
  postal_code : String
  city : String
deriving DecidableEq

/-- The `required` list of the form handler: every field that must be
non-blank, in source order.  `sibling_school` and `notes` are absent. -/
def requiredList (f : FormInput) : List String :=
  [f.registry_number, f.last_name, f.first_name, f.father_name,
   f.street, f.street_number, f.postal_code, f.city]

/-- `all(str(x).strip() for x in required)`: every required field is nonempty
after stripping. -/
def validates (f : FormInput) : Bool :=
  (requiredList f).all (fun x => pstrip x ≠ "")

/-- The mutable fields every saved record carries, in the dict-literal order
of the source, with the form values stripped and the school identity taken
from the logged-in user's credential entry. -/
def baseFields (f : FormInput) (schoolName schoolCode : String) :
    List (String × String) :=
  [("registry_number", pstrip f.registry_number),
   ("last_name", pstrip f.last_name),
   ("first_name", pstrip f.first_name),
   ("father_name", pstrip f.father_name),
   ("sibling_school", pstrip f.sibling_school),
   ("notes", pstrip f.notes),
   ("school", schoolName),
   ("school_code", schoolCode),
   ("street", pstrip f.street),
   ("street_number", pstrip f.street_number),
   ("postal_code", pstrip f.postal_code),
   ("city", pstrip f.city)]

/-- The replacement dict built on the edit path (`records[i] = { ... }`):
the targeted identifier is kept, `last_modified` is set, and no `created_at`
key is present. -/
def editedRecord (recId : String) (f : FormInput)
    (schoolName schoolCode isoNow : String) : Record :=
  ("id", recId) :: baseFields f schoolName schoolCode ++ [("last_modified", isoNow)]

/-- The dict appended when the edit target is gone (the stale-edit fallback):
a fresh identifier `str(int(time.time()))` and, exactly as in the source,
`last_modified` set and no `created_at` key. -/
def fallbackRecord (epochNow : Nat) (f : FormInput)
    (schoolName schoolCode isoNow : String) : Record :=
  ("id", toString epochNow) :: baseFields f schoolName schoolCode ++
    [("last_modified", isoNow)]

/-- The dict appended on the create path (no editing identifier): a fresh
identifier `str(int(time.time()))`, `created_at` set, no `last_modified`. -/
def createdRecord (epochNow : Nat) (f : FormInput)
    (schoolName schoolCode isoNow : String) : Record :=
  ("id", toString epochNow) :: baseFields f schoolName schoolCode ++
    [("created_at", isoNow)]

/-- Python truthiness of `st.session_state.editing_record_id`: `None` and the
empty string are falsy, any other string is truthy. -/
def truthy : Option String → Bool
  | none => false
  | some s => s ≠ ""

/-- The edit loop: find the first record with `str(rec.get("id")) ==
str(rec_id)` and replace it; `none` when no record matches (`updated` stays
false in the source). -/
def replaceFirst (records : List Record) (eid : String) (newRec : Record) :
    Option (List Record) :=
  match records with
  | [] => none
  | r :: rs =>
    if pyStr (getField r "id") = eid then some (newRec :: rs)
    else (replaceFirst rs eid newRec).map (fun l => r :: l)

/-- The reconciler: the body of the form handler between `read_records` and
`write_records`.  Returns the updated record list and whether the stale-edit
warning was shown. -/
def reconcile (records : List Record) (editingId : Option String)
    (f : FormInput) (schoolName schoolCode isoNow : String) (epochNow : Nat) :
    List Record × Bool :=
  if truthy editingId then
    let eid := editingId.getD ""
    match replaceFirst records eid (editedRecord eid f schoolName schoolCode isoNow) with
    | some rs => (rs, false)
    | none => (records ++ [fallbackRecord epochNow f schoolName schoolCode isoNow], true)
  else
    (records ++ [createdRecord epochNow f schoolName schoolCode isoNow], false)

/-- The outcome the form handler surfaces to the user. -/
inductive SaveOutcome
  | validationError
  | saved (warned : Bool)
deriving DecidableEq

/-- The whole submit handler: validate, read the record file, reconcile,
write the file back.  On a validation failure nothing is written. -/
def submitAction (fs : FS) (editingId : Option String) (f : FormInput)
    (schoolName schoolCode isoNow : String) (epochNow : Nat) : FS × SaveOutcome :=
  if validates f then
    let records := read_records fs.final
    let (newRecs, warned) := reconcile records editingId f schoolName schoolCode isoNow epochNow
    (write_records newRecs, SaveOutcome.saved warned)
  else
    (fs, SaveOutcome.validationError)

/-- Confirmed deletion: re-read the file, keep every record with
`str(r.get("id")) != str(rec_id)`, and write the result back. -/
def deleteConfirm (fs : FS) (recId : String) : FS :=
  write_records ((read_records fs.final).filter
    (fun r => pyStr (getField r "id") != recId))

/-- `pd.DataFrame(records)` column order: every key in order of first
appearance across the records. -/
def addCols (acc : List String) (r : Record) : List String :=
  r.foldl (fun a p => if a.contains p.1 then a else a ++ [p.1]) acc

/-- The columns of `pd.DataFrame(records)`. -/
def collectCols (records : List Record) : List String :=
  records.foldl addCols []

/-- The keys every saved record carries, in the dict-literal order of the
source (the timestamp key — `created_at` or `last_modified` — follows). -/
def appRecordKeys : List String :=
  ["id", "registry_number", "last_name", "first_name", "father_name", "sibling_school",
   "notes", "school", "school_code", "street", "street_number", "postal_code", "city"]

/-- `export_to_excel_bytes` at the workbook-table level: the single sheet
name passed to `df.to_excel`, the header row (the DataFrame's column labels,
i.e. the raw field keys), and one data row per record, each cell the
record's value for that column (`none` where the record lacks the key). -/
def exportTable (records : List Record) :
    String × List String × List (List (Option String)) :=
  ("Students", collectCols records,
    records.map (fun r => (collectCols records).map (fun c => getField r c)))

/-!
## Helper lemmas

The serializer/parser roundtrip: `json.loads` recovers exactly the object
`json.dump` wrote, and the newline-delimited framing recovers exactly the
written lines (no serialized record contains a newline).
-/

theorem parseHexDigit_hexDigit (n : Nat) (h : n < 16) :
    parseHexDigit (hexDigit n) = some n := by
  interval_cases n <;> decide

theorem parseStrBody_escChar (c : Char) (acc rest : List Char) :
    parseStrBody acc (escChar c ++ rest) = parseStrBody (c :: acc) rest := by
  by_cases h1 : c = '\\'
  · subst h1; rw [escChar, parseStrBody.eq_def]; simp
  by_cases h2 : c = '"'
  · subst h2; rw [escChar, parseStrBody.eq_def]; simp
  by_cases h3 : c = '\x08'
  · subst h3; rw [escChar, parseStrBody.eq_def]; simp
  by_cases h4 : c = '\x0c'
  · subst h4; rw [escChar, parseStrBody.eq_def]; simp
  by_cases h5 : c = '\n'
  · subst h5; rw [escChar, parseStrBody.eq_def]; simp
  by_cases h6 : c = '\r'
  · subst h6; rw [escChar, parseStrBody.eq_def]; simp
  by_cases h7 : c = '\t'
  · subst h7; rw [escChar, parseStrBody.eq_def]; simp
  by_cases h8 : c.toNat < 32
  · have hd : c.toNat / 16 < 16 := by omega
    have hm : c.toNat % 16 < 16 := Nat.mod_lt _ (by norm_num)
    rw [escChar]
    simp only [if_neg h1, if_neg h2, if_neg h3, if_neg h4, if_neg h5, if_neg h6, if_neg h7,
      if_pos h8]
    rw [parseStrBody.eq_def]
    have h0 : parseHexDigit '0' = some 0 := by decide
    simp [h0, parseHexDigit_hexDigit _ hd, parseHexDigit_hexDigit _ hm]
    have harith : c.toNat / 16 * 16 + c.toNat % 16 = c.toNat := by omega
    rw [harith, Char.ofNat_toNat]
  · rw [escChar]
    simp only [if_neg h1, if_neg h2, if_neg h3, if_neg h4, if_neg h5, if_neg h6, if_neg h7,
      if_neg h8]
    rw [List.singleton_append, parseStrBody.eq_def]
    simp only [if_neg h2, if_neg h1, if_neg h8, if_false]

theorem parseStrBody_escStr (s : List Char) (acc rest : List Char) :
    parseStrBody acc (escStr s ++ '"' :: rest) = some (acc.reverse ++ s, rest) := by
  induction s generalizing acc with
  | nil => rw [escStr]; simp only [List.map_nil, List.flatten_nil, List.nil_append]; rw [parseStrBody.eq_def]; simp
  | cons c s ih =>
    have hesc : escStr (c :: s) = escChar c ++ escStr s := by
      simp [escStr]
    rw [hesc, List.append_assoc, parseStrBody_escChar, ih]
    simp

theorem parseJString_quoteStr (s : String) (rest : List Char) :
    parseJString (quoteStr s ++ rest) = some (s.data, rest) := by
  rw [quoteStr]
  have : ('"' :: escStr s.data ++ ['"']) ++ rest = '"' :: (escStr s.data ++ '"' :: rest) := by
    simp
  rw [this, parseJString]
  simp [parseStrBody_escStr]

theorem skipWs_cons_of {c : Char} (l : List Char) (h : isJsonWs c = false) :
    skipWs (c :: l) = c :: l := by simp [skipWs, List.dropWhile_cons, h]

theorem skipWs_space (l : List Char) : skipWs (' ' :: l) = skipWs l := by
  simp [skipWs, List.dropWhile_cons, isJsonWs]

theorem quoteStr_ne_ws (s : String) (rest : List Char) :
    skipWs (quoteStr s ++ rest) = quoteStr s ++ rest := by
  rw [quoteStr]
  exact skipWs_cons_of _ (by decide)

theorem serPair_expand (p : String × String) (rest : List Char) :
    serPair p ++ rest = quoteStr p.1 ++ (':' :: ' ' :: (quoteStr p.2 ++ rest)) := by
  rw [serPair]; simp

theorem skipWs_colon (l : List Char) : skipWs (':' :: l) = ':' :: l :=
  skipWs_cons_of l (by decide)

theorem skipWs_comma (l : List Char) : skipWs (',' :: l) = ',' :: l :=
  skipWs_cons_of l (by decide)

theorem skipWs_rbrace (l : List Char) : skipWs ('}' :: l) = '}' :: l :=
  skipWs_cons_of l (by decide)

theorem skipWs_quote (l : List Char) : skipWs ('"' :: l) = '"' :: l :=
  skipWs_cons_of l (by decide)

theorem skipWs_serMembers_cons (q : String × String) (qs : Record) (rest : List Char) :
    skipWs (serMembers (q :: qs) ++ rest) = serMembers (q :: qs) ++ rest := by
  cases qs with
  | nil => rw [serMembers, serPair_expand]; exact quoteStr_ne_ws _ _
  | cons q2 qs2 =>
    rw [serMembers, List.append_assoc, serPair_expand]
    exact quoteStr_ne_ws _ _

theorem parsePairsAux_serMembers (p : String × String) (ps : Record)
    (rest : List Char) (fuel : Nat) (hf : (p :: ps).length ≤ fuel + 1) :
    parsePairsAux (fuel + 1) (serMembers (p :: ps) ++ '}' :: rest) =
      some (p :: ps, rest) := by
  induction ps generalizing p rest fuel with
  | nil =>
    rw [serMembers, parsePairsAux, serPair_expand, parseJString_quoteStr]
    simp only [skipWs_colon, skipWs_space, quoteStr_ne_ws, parseJString_quoteStr, skipWs_rbrace]
  | cons q qs ih =>
    have hm : serMembers (p :: q :: qs) ++ '}' :: rest =
        serPair p ++ (',' :: ' ' :: (serMembers (q :: qs) ++ '}' :: rest)) := by
      rw [serMembers]; simp
    cases fuel with
    | zero => simp at hf
    | succ fuel2 =>
      rw [hm, parsePairsAux, serPair_expand, parseJString_quoteStr]
      simp only [skipWs_colon, skipWs_space, quoteStr_ne_ws, parseJString_quoteStr,
        skipWs_comma, skipWs_serMembers_cons]
      rw [ih q rest fuel2 (by simp only [List.length_cons] at hf ⊢; omega)]

theorem serPair_length_pos (p : String × String) : 1 ≤ (serPair p).length := by
  rw [serPair, quoteStr]; simp

theorem length_le_serMembers (ps : Record) : ps.length ≤ (serMembers ps).length := by
  match ps with
  | [] => simp [serMembers]
  | [p] =>
    have := serPair_length_pos p
    simp [serMembers]; omega
  | p :: q :: qs =>
    have h1 := serPair_length_pos p
    have h2 := length_le_serMembers (q :: qs)
    rw [serMembers]
    simp only [List.length_cons, List.length_append] at h2 ⊢
    omega

theorem parseObj_serObj (r : Record) (rest : List Char) :
    parseObj (serObj r ++ rest) = some (r, rest) := by
  match r with
  | [] =>
    have hshape : serObj ([] : Record) ++ rest = '{' :: '}' :: rest := rfl
    rw [hshape, parseObj]
    simp [skipWs, List.dropWhile_cons, isJsonWs]
  | p :: ps =>
    obtain ⟨v, hv⟩ : ∃ v, serMembers (p :: ps) ++ '}' :: rest = '"' :: v := by
      cases ps with
      | nil =>
        exact ⟨escStr p.1.data ++ '"' :: ':' :: ' ' :: (quoteStr p.2 ++ '}' :: rest),
          by rw [serMembers, serPair_expand, quoteStr]; simp⟩
      | cons q qs =>
        exact ⟨escStr p.1.data ++ '"' :: ':' :: ' ' ::
            (quoteStr p.2 ++ ',' :: ' ' :: (serMembers (q :: qs) ++ '}' :: rest)),
          by rw [serMembers, List.append_assoc, serPair_expand, quoteStr]; simp⟩
    have hshape : serObj (p :: ps) ++ rest = '{' :: (serMembers (p :: ps) ++ '}' :: rest) := by
      rw [serObj]; simp
    have hlen : (p :: ps).length ≤ v.length + 1 := by
      have h1 := length_le_serMembers (p :: ps)
      have h2 : (serMembers (p :: ps) ++ '}' :: rest).length = v.length + 1 := by
        rw [hv]; simp
      simp only [List.length_append, List.length_cons] at h2
      omega
    rw [hshape, parseObj, skipWs_cons_of _ (show isJsonWs '{' = false by decide), hv]
    simp only [skipWs_quote]
    show parsePairsAux (('"' :: v).length + 1) ('"' :: v) = some (p :: ps, rest)
    have hl2 : ('"' :: v).length + 1 = (v.length + 1) + 1 := by simp
    rw [hl2, ← hv]
    exact parsePairsAux_serMembers p ps rest (v.length + 1) (by omega)

theorem jsonLoads_serObj (r : Record) : jsonLoads (serObj r) = some r := by
  rw [jsonLoads]
  have h := parseObj_serObj r []
  rw [List.append_nil] at h
  rw [h]
  simp [skipWs]

theorem hexDigit_ne_nl (n : Nat) (h : n < 16) : hexDigit n ≠ '\n' := by
  interval_cases n <;> decide

theorem nl_not_mem_escChar (c : Char) : '\n' ∉ escChar c := by
  rw [escChar]
  by_cases h1 : c = '\\'
  · simp [h1]
  by_cases h2 : c = '"'
  · simp [h1, h2]
  by_cases h3 : c = '\x08'
  · simp [h1, h2, h3]
  by_cases h4 : c = '\x0c'
  · simp [h1, h2, h3, h4]
  by_cases h5 : c = '\n'
  · simp [h1, h2, h3, h4, h5]
  by_cases h6 : c = '\r'
  · simp [h1, h2, h3, h4, h5, h6]
  by_cases h7 : c = '\t'
  · simp [h1, h2, h3, h4, h5, h6, h7]
  by_cases h8 : c.toNat < 32
  · simp only [if_neg h1, if_neg h2, if_neg h3, if_neg h4, if_neg h5, if_neg h6, if_neg h7,
      if_pos h8]
    have hd := hexDigit_ne_nl (c.toNat / 16) (by omega)
    have hm := hexDigit_ne_nl (c.toNat % 16) (Nat.mod_lt _ (by norm_num))
    simp [Ne.symm hd, Ne.symm hm]
  · simp only [if_neg h1, if_neg h2, if_neg h3, if_neg h4, if_neg h5, if_neg h6, if_neg h7,
      if_neg h8]
    simp
    exact fun hc => h5 hc.symm

theorem nl_not_mem_escStr (s : List Char) : '\n' ∉ escStr s := by
  simp only [escStr, List.mem_flatten]
  intro hex
  obtain ⟨l, hl, hmem⟩ := hex
  simp only [List.mem_map] at hl
  obtain ⟨c, _, hc⟩ := hl
  exact absurd (hc ▸ hmem) (nl_not_mem_escChar c)

theorem nl_not_mem_quoteStr (s : String) : '\n' ∉ quoteStr s := by
  simp [quoteStr, nl_not_mem_escStr]

theorem nl_not_mem_serPair (p : String × String) : '\n' ∉ serPair p := by
  simp [serPair, nl_not_mem_quoteStr]

theorem nl_not_mem_serMembers (ps : Record) : '\n' ∉ serMembers ps := by
  match ps with
  | [] => simp [serMembers]
  | [p] => rw [serMembers]; exact nl_not_mem_serPair p
  | p :: q :: qs =>
    rw [serMembers]
    simp [nl_not_mem_serPair, nl_not_mem_serMembers (q :: qs)]

theorem nl_not_mem_serObj (r : Record) : '\n' ∉ serObj r := by
  simp [serObj, nl_not_mem_serMembers]

theorem splitNl_append (l rest : List Char) (h : '\n' ∉ l) :
    splitNl (l ++ '\n' :: rest) = l :: splitNl rest := by
  induction l with
  | nil => simp [splitNl]
  | cons c l ih =>
    have hc : c ≠ '\n' := fun hc => h (hc ▸ List.mem_cons_self c l)
    have hl : '\n' ∉ l := fun hm => h (List.mem_cons_of_mem c hm)
    rw [List.cons_append, splitNl]
    simp only [if_neg hc]
    rw [ih hl]

theorem stripChars_not_space (l : List Char) (c d : Char)
    (hc : isPySpace c = false) (hd : isPySpace d = false) :
    stripChars (c :: l ++ [d]) = c :: l ++ [d] := by
  have h1 : List.dropWhile isPySpace (c :: (l ++ [d])) = c :: (l ++ [d]) := by
    rw [List.dropWhile_cons, hc]; simp
  have h2 : (c :: (l ++ [d])).reverse = d :: (l.reverse ++ [c]) := by simp
  have h3 : List.dropWhile isPySpace (d :: (l.reverse ++ [c])) = d :: (l.reverse ++ [c]) := by
    rw [List.dropWhile_cons, hd]; simp
  rw [stripChars, List.cons_append, h1, h2, h3]
  simp

theorem stripChars_serObj (r : Record) : stripChars (serObj r) = serObj r := by
  have hshape : serObj r = '{' :: serMembers r ++ ['}'] := by rw [serObj]
  rw [hshape]
  exact stripChars_not_space (serMembers r) '{' '}' (by decide) (by decide)

theorem serializeRecords_cons (r : Record) (rs : List Record) :
    serializeRecords (r :: rs) = serObj r ++ '\n' :: serializeRecords rs := by
  simp [serializeRecords]

theorem readContent_serializeRecords (rs : List Record) :
    readContent (serializeRecords rs) = rs := by
  induction rs with
  | nil => rfl
  | cons r rs ih =>
    rw [serializeRecords_cons, readContent, splitNl_append _ _ (nl_not_mem_serObj r)]
    rw [List.filterMap_cons]
    simp only [stripChars_serObj]
    have hne : serObj r ≠ [] := by rw [serObj]; simp
    simp only [if_neg hne, jsonLoads_serObj]
    rw [← readContent, ih]

/-!
## Claim theorems
-/

theorem read_write_roundtrip (rs : List Record) :
    read_records (write_records rs).final = rs := by
  simp only [write_records, read_records]
  exact readContent_serializeRecords rs

theorem replaceFirst_found (pre post : List Record) (r0 : Record) (eid : String)
    (nr : Record) (hmatch : pyStr (getField r0 "id") = eid)
    (hpre : ∀ q ∈ pre, pyStr (getField q "id") ≠ eid) :
    replaceFirst (pre ++ r0 :: post) eid nr = some (pre ++ nr :: post) := by
  induction pre with
  | nil => simp [replaceFirst, hmatch]
  | cons q qs ih =>
    have hq : pyStr (getField q "id") ≠ eid := hpre q (List.mem_cons_self q qs)
    rw [List.cons_append, replaceFirst]
    simp only [if_neg hq]
    rw [ih (fun x hx => hpre x (List.mem_cons_of_mem q hx))]
    rfl

theorem replaceFirst_missing (records : List Record) (eid : String) (nr : Record)
    (hnone : ∀ q ∈ records, pyStr (getField q "id") ≠ eid) :
    replaceFirst records eid nr = none := by
  induction records with
  | nil => rfl
  | cons q qs ih =>
    rw [replaceFirst]
    simp only [if_neg (hnone q (List.mem_cons_self q qs))]
    rw [ih (fun x hx => hnone x (List.mem_cons_of_mem q hx))]
    rfl

/-- C10: serialization roundtrip: for every list of string-valued record
dicts, `read_records` on the file `write_records` produced returns the same
list (count, order and all field values preserved), and no serialized record
contains a newline, so no record is split across lines. -/
theorem c10_write_read_roundtrip :
    (∀ rs : List Record, read_records (write_records rs).final = rs) ∧
    (∀ r : Record, '\n' ∉ serObj r) :=
  ⟨read_write_roundtrip, nl_not_mem_serObj⟩

/-- C6: a missing file loads as the empty record set, and a file holding one
well-formed line followed by one malformed line loads as exactly the one
well-formed record, the malformed line being silently skipped. -/
theorem c6_load_skips_malformed :
    read_records none = [] ∧
    (∀ r : Record,
      read_records (some (serObj r ++ '\n' :: ('{' :: "oops".data ++ ['\n']))) = [r]) := by
  refine ⟨rfl, fun r => ?_⟩
  show readContent (serObj r ++ '\n' :: ('{' :: "oops".data ++ ['\n'])) = [r]
  rw [readContent, splitNl_append _ _ (nl_not_mem_serObj r), List.filterMap_cons]
  have hne : serObj r ≠ [] := by rw [serObj]; simp
  simp only [stripChars_serObj, if_neg hne, jsonLoads_serObj]
  rw [← readContent]
  have : readContent ('{' :: "oops".data ++ ['\n']) = [] := by decide
  rw [this]

/-- C7: atomicity of `write_records`: at every interruption point the target
path holds either the complete old content or the complete new content —
never a partial mix — and reading at any state before the final rename
returns exactly the pre-crash record set. -/
theorem c7_atomic_write (fs : FS) (rs : List Record) (s : FS)
    (hs : s ∈ writeStates fs rs) :
    (s.final = fs.final ∨ s.final = some (serializeRecords rs)) ∧
    (read_records s.final = read_records fs.final ∨ read_records s.final = rs) ∧
    (s ≠ write_records rs → read_records s.final = read_records fs.final) := by
  rw [writeStates, List.mem_append] at hs
  rcases hs with hmap | hlast
  · simp only [List.mem_map, List.mem_range] at hmap
    obtain ⟨k, _, hk⟩ := hmap
    have hfin : s.final = fs.final := by rw [← hk]
    exact ⟨Or.inl hfin, Or.inl (by rw [hfin]), fun _ => by rw [hfin]⟩
  · simp only [List.mem_singleton] at hlast
    subst hlast
    refine ⟨Or.inr rfl, Or.inr (read_write_roundtrip rs), fun hne => absurd rfl hne⟩

theorem c7_atomic_write_witness :
    (⟨none, some []⟩ : FS) ∈ writeStates ⟨none, none⟩ [] ∧
    ((⟨none, some []⟩ : FS).final = (⟨none, none⟩ : FS).final ∨
      (⟨none, some []⟩ : FS).final = some (serializeRecords [])) := by
  have hmem : (⟨none, some []⟩ : FS) ∈ writeStates ⟨none, none⟩ [] := by decide
  exact ⟨hmem, (c7_atomic_write ⟨none, none⟩ [] ⟨none, some []⟩ hmem).1⟩

/-- C5: when any required field is blank after trimming, the save fails with
a validation error and the file is untouched; `sibling_school` and `notes`
are not consulted by validation at all. -/
theorem c5_validation_guard (fs : FS) (editingId : Option String) (f : FormInput)
    (schoolName schoolCode isoNow : String) (epochNow : Nat) :
    ((∃ x ∈ requiredList f, pstrip x = "") →
      submitAction fs editingId f schoolName schoolCode isoNow epochNow =
        (fs, SaveOutcome.validationError)) ∧
    (∀ s n : String,
      validates { f with sibling_school := s, notes := n } = validates f) := by
  constructor
  · intro hex
    have hval : validates f = false := by
      by_contra hcon
      rw [Bool.not_eq_false, validates, List.all_eq_true] at hcon
      obtain ⟨x, hx, hxe⟩ := hex
      have hx2 := hcon x hx
      simp only [decide_eq_true_eq] at hx2
      exact hx2 hxe
    rw [submitAction, hval]
    simp
  · intro s n
    rfl

theorem c5_validation_guard_witness :
    submitAction ⟨none, none⟩ none ⟨" ", "a", "b", "c", "", "", "d", "e", "f", "g"⟩
        "S" "C" "T" 5 = ((⟨none, none⟩ : FS), SaveOutcome.validationError) ∧
    validates ⟨"1", "a", "b", "c", "x", "y", "d", "e", "f", "g"⟩ =
      validates ⟨"1", "a", "b", "c", "", "", "d", "e", "f", "g"⟩ := by
  constructor
  · exact (c5_validation_guard ⟨none, none⟩ none ⟨" ", "a", "b", "c", "", "", "d", "e", "f", "g"⟩
      "S" "C" "T" 5).1 ⟨" ", by decide, by decide⟩
  · exact ((c5_validation_guard ⟨none, none⟩ none
      ⟨"1", "a", "b", "c", "x", "y", "d", "e", "f", "g"⟩ "S" "C" "T" 5).2 "" "").symm

/-- C4: with no (truthy) editing identifier and a valid field set, save
appends exactly one new record — fields are the trimmed inputs, the creation
timestamp is set and last-modified is unset — and a subsequent load returns
the prior set plus that record. -/
theorem c4_create_then_load (fs : FS) (editingId : Option String) (f : FormInput)
    (schoolName schoolCode isoNow : String) (epochNow : Nat)
    (hval : validates f = true) (hid : truthy editingId = false) :
    submitAction fs editingId f schoolName schoolCode isoNow epochNow =
      (write_records (read_records fs.final ++
          [createdRecord epochNow f schoolName schoolCode isoNow]),
        SaveOutcome.saved false) ∧
    read_records (submitAction fs editingId f schoolName schoolCode isoNow epochNow).1.final =
      read_records fs.final ++ [createdRecord epochNow f schoolName schoolCode isoNow] ∧
    getField (createdRecord epochNow f schoolName schoolCode isoNow) "created_at" =
      some isoNow ∧
    getField (createdRecord epochNow f schoolName schoolCode isoNow) "last_modified" = none ∧
    getField (createdRecord epochNow f schoolName schoolCode isoNow) "registry_number" =
      some (pstrip f.registry_number) ∧
    getField (createdRecord epochNow f schoolName schoolCode isoNow) "last_name" =
      some (pstrip f.last_name) ∧
    getField (createdRecord epochNow f schoolName schoolCode isoNow) "first_name" =
      some (pstrip f.first_name) ∧
    getField (createdRecord epochNow f schoolName schoolCode isoNow) "father_name" =
      some (pstrip f.father_name) ∧
    getField (createdRecord epochNow f schoolName schoolCode isoNow) "sibling_school" =
      some (pstrip f.sibling_school) ∧
    getField (createdRecord epochNow f schoolName schoolCode isoNow) "notes" =
      some (pstrip f.notes) ∧
    getField (createdRecord epochNow f schoolName schoolCode isoNow) "street" =
      some (pstrip f.street) ∧
    getField (createdRecord epochNow f schoolName schoolCode isoNow) "street_number" =
      some (pstrip f.street_number) ∧
    getField (createdRecord epochNow f schoolName schoolCode isoNow) "postal_code" =
      some (pstrip f.postal_code) ∧
    getField (createdRecord epochNow f schoolName schoolCode isoNow) "city" =
      some (pstrip f.city) := by
  have hsub : submitAction fs editingId f schoolName schoolCode isoNow epochNow =
      (write_records (read_records fs.final ++
          [createdRecord epochNow f schoolName schoolCode isoNow]),
        SaveOutcome.saved false) := by
    rw [submitAction, if_pos hval]
    simp [reconcile, hid]
  refine ⟨hsub, ?_, ?_, ?_, ?_, ?_, ?_, ?_, ?_, ?_, ?_, ?_, ?_, ?_⟩
  · rw [hsub]
    exact read_write_roundtrip _
  all_goals simp [getField, createdRecord, baseFields]

theorem c4_create_then_load_witness :
    validates ⟨"1", "a", "b", "c", "", "", "d", "e", "f", "g"⟩ = true ∧
    truthy none = false ∧
    submitAction ⟨none, none⟩ none ⟨"1", "a", "b", "c", "", "", "d", "e", "f", "g"⟩
        "S" "C" "T" 7 =
      (write_records (read_records (⟨none, none⟩ : FS).final ++
          [createdRecord 7 ⟨"1", "a", "b", "c", "", "", "d", "e", "f", "g"⟩ "S" "C" "T"]),
        SaveOutcome.saved false) :=
  ⟨by decide, rfl,
    (c4_create_then_load ⟨none, none⟩ none ⟨"1", "a", "b", "c", "", "", "d", "e", "f", "g"⟩
      "S" "C" "T" 7 (by decide) rfl).1⟩

/-- C1 as frozen is false on the code: editing a record does not preserve its
creation timestamp — the replacement dict carries no `created_at` key, so the
timestamp is dropped.  Concretely, a record with `created_at` set loses it
when edited. -/
theorem c1_counterexample :
    getField [("id", "7"), ("created_at", "2020-01-01T00:00:00")] "created_at" =
      some "2020-01-01T00:00:00" ∧
    (reconcile [[("id", "7"), ("created_at", "2020-01-01T00:00:00")]] (some "7")
        ⟨"12", "Pap", "Nik", "Geo", "", "", "Akro", "5", "12345", "Athens"⟩
        "S" "C" "2021-01-01T00:00:00" 99).1.map (fun r => getField r "created_at") =
      [none] := by decide

/-- C1 amended: editing an existing record keeps the set's length and the
record's identifier, replaces all submitted fields with their trimmed values,
sets last-modified to the current clock value (which is ≥ the record's
previous last-modified value, the clock being monotone) — but the creation
timestamp is dropped, not preserved. -/
theorem c1_edit_overwrites (pre post : List Record) (r0 : Record) (eid : String)
    (f : FormInput) (schoolName schoolCode isoNow : String) (epochNow : Nat)
    (hne : eid ≠ "")
    (hmatch : pyStr (getField r0 "id") = eid)
    (hpre : ∀ q ∈ pre, pyStr (getField q "id") ≠ eid)
    (hclock : ∀ p, getField r0 "last_modified" = some p → p ≤ isoNow) :
    reconcile (pre ++ r0 :: post) (some eid) f schoolName schoolCode isoNow epochNow =
      (pre ++ editedRecord eid f schoolName schoolCode isoNow :: post, false) ∧
    (pre ++ editedRecord eid f schoolName schoolCode isoNow :: post).length =
      (pre ++ r0 :: post).length ∧
    getField (editedRecord eid f schoolName schoolCode isoNow) "id" = some eid ∧
    getField (editedRecord eid f schoolName schoolCode isoNow) "last_modified" =
      some isoNow ∧
    (∀ p, getField r0 "last_modified" = some p → p ≤ isoNow) ∧
    getField (editedRecord eid f schoolName schoolCode isoNow) "created_at" = none ∧
    getField (editedRecord eid f schoolName schoolCode isoNow) "registry_number" =
      some (pstrip f.registry_number) ∧
    getField (editedRecord eid f schoolName schoolCode isoNow) "last_name" =
      some (pstrip f.last_name) ∧
    getField (editedRecord eid f schoolName schoolCode isoNow) "first_name" =
      some (pstrip f.first_name) ∧
    getField (editedRecord eid f schoolName schoolCode isoNow) "father_name" =
      some (pstrip f.father_name) ∧
    getField (editedRecord eid f schoolName schoolCode isoNow) "sibling_school" =
      some (pstrip f.sibling_school) ∧
    getField (editedRecord eid f schoolName schoolCode isoNow) "notes" =
      some (pstrip f.notes) ∧
    getField (editedRecord eid f schoolName schoolCode isoNow) "street" =
      some (pstrip f.street) ∧
    getField (editedRecord eid f schoolName schoolCode isoNow) "street_number" =
      some (pstrip f.street_number) ∧
    getField (editedRecord eid f schoolName schoolCode isoNow) "postal_code" =
      some (pstrip f.postal_code) ∧
    getField (editedRecord eid f schoolName schoolCode isoNow) "city" =
      some (pstrip f.city) := by
  have hrec : reconcile (pre ++ r0 :: post) (some eid) f schoolName schoolCode isoNow epochNow =
      (pre ++ editedRecord eid f schoolName schoolCode isoNow :: post, false) := by
    have htr : truthy (some eid) = true := by simp [truthy, hne]
    rw [reconcile, if_pos htr]
    simp only [Option.getD_some]
    rw [replaceFirst_found pre post r0 eid _ hmatch hpre]
  refine ⟨hrec, by simp, ?_, ?_, hclock, ?_, ?_, ?_, ?_, ?_, ?_, ?_, ?_, ?_, ?_, ?_⟩
  all_goals simp [getField, editedRecord, baseFields]

theorem c1_edit_overwrites_witness :
    reconcile [[("id", "7"), ("created_at", "2020")]] (some "7")
        ⟨"12", "Pap", "Nik", "Geo", "", "", "Akro", "5", "12345", "Athens"⟩
        "S" "C" "2021" 99 =
      ([editedRecord "7" ⟨"12", "Pap", "Nik", "Geo", "", "", "Akro", "5", "12345", "Athens"⟩
          "S" "C" "2021"], false) :=
  (c1_edit_overwrites [] [] [("id", "7"), ("created_at", "2020")] "7"
    ⟨"12", "Pap", "Nik", "Geo", "", "", "Akro", "5", "12345", "Athens"⟩ "S" "C" "2021" 99
    (by decide) (by decide) (by simp) (by decide)).1

/-- C2 as frozen is false on the code: the identifier is the whole-second
wall clock (`str(int(time.time()))`), so two creates within the same second
collide — after two such saves the set holds two records with the same
identifier. -/
theorem c2_counterexample :
    ((reconcile (reconcile [] none
        ⟨"12", "Pap", "Nik", "Geo", "", "", "Akro", "5", "12345", "Athens"⟩
        "S" "C" "T" 100).1 none
        ⟨"12", "Pap", "Nik", "Geo", "", "", "Akro", "5", "12345", "Athens"⟩
        "S" "C" "T" 100).1).map (fun r => getField r "id") =
      [some "100", some "100"] := by decide

/-- C2 amended: a create assigns identifier `str(int(time.time()))`; it is
distinct from every identifier already in the set only when no existing
record already carries that second's value — collisions are neither detected
nor resolved. -/
theorem c2_fresh_id_unique (records : List Record) (editingId : Option String)
    (f : FormInput) (schoolName schoolCode isoNow : String) (epochNow : Nat)
    (hid : truthy editingId = false)
    (hfresh : ∀ r ∈ records, getField r "id" ≠ some (toString epochNow)) :
    reconcile records editingId f schoolName schoolCode isoNow epochNow =
      (records ++ [createdRecord epochNow f schoolName schoolCode isoNow], false) ∧
    getField (createdRecord epochNow f schoolName schoolCode isoNow) "id" =
      some (toString epochNow) ∧
    ∀ r ∈ records,
      getField r "id" ≠
        getField (createdRecord epochNow f schoolName schoolCode isoNow) "id" := by
  refine ⟨by simp [reconcile, hid], by simp [getField, createdRecord], ?_⟩
  intro r hr
  have hgf : getField (createdRecord epochNow f schoolName schoolCode isoNow) "id" =
      some (toString epochNow) := by simp [getField, createdRecord]
  rw [hgf]
  exact hfresh r hr

theorem c2_fresh_id_unique_witness :
    reconcile [[("id", "99")]] none
        ⟨"12", "Pap", "Nik", "Geo", "", "", "Akro", "5", "12345", "Athens"⟩
        "S" "C" "T" 100 =
      ([[("id", "99")]] ++ [createdRecord 100
          ⟨"12", "Pap", "Nik", "Geo", "", "", "Akro", "5", "12345", "Athens"⟩ "S" "C" "T"],
        false) :=
  (c2_fresh_id_unique [[("id", "99")]] none
    ⟨"12", "Pap", "Nik", "Geo", "", "", "Akro", "5", "12345", "Athens"⟩
    "S" "C" "T" 100 rfl (by decide)).1

/-- C3 as frozen is false on the code: the stale-edit fallback appends a
record whose `last_modified` is set and whose `created_at` is absent — the
opposite of "creation timestamp set, last-modified unset". -/
theorem c3_counterexample :
    reconcile [[("id", "1")]] (some "999")
        ⟨"12", "Pap", "Nik", "Geo", "", "", "Akro", "5", "12345", "Athens"⟩
        "S" "C" "T" 100 =
      ([[("id", "1")],
        fallbackRecord 100 ⟨"12", "Pap", "Nik", "Geo", "", "", "Akro", "5", "12345", "Athens"⟩
          "S" "C" "T"], true) ∧
    getField (fallbackRecord 100
        ⟨"12", "Pap", "Nik", "Geo", "", "", "Akro", "5", "12345", "Athens"⟩ "S" "C" "T")
      "created_at" = none ∧
    getField (fallbackRecord 100
        ⟨"12", "Pap", "Nik", "Geo", "", "", "Akro", "5", "12345", "Athens"⟩ "S" "C" "T")
      "last_modified" = some "T" := by decide

/-- C3 amended: when the editing identifier matches no record, the save
falls back to appending a new record with a fresh identifier, surfaces the
(non-fatal) stale-edit warning, and completes — but the appended record has
`last_modified` set to the current time and no creation timestamp. -/
theorem c3_stale_edit_fallback (fs : FS) (eid : String) (f : FormInput)
    (schoolName schoolCode isoNow : String) (epochNow : Nat)
    (hval : validates f = true) (hne : eid ≠ "")
    (hnomatch : ∀ r ∈ read_records fs.final, pyStr (getField r "id") ≠ eid) :
    submitAction fs (some eid) f schoolName schoolCode isoNow epochNow =
      (write_records (read_records fs.final ++
          [fallbackRecord epochNow f schoolName schoolCode isoNow]),
        SaveOutcome.saved true) ∧
    getField (fallbackRecord epochNow f schoolName schoolCode isoNow) "id" =
      some (toString epochNow) ∧
    getField (fallbackRecord epochNow f schoolName schoolCode isoNow) "last_modified" =
      some isoNow ∧
    getField (fallbackRecord epochNow f schoolName schoolCode isoNow) "created_at" =
      none := by
  have htr : truthy (some eid) = true := by simp [truthy, hne]
  have hrec : reconcile (read_records fs.final) (some eid) f schoolName schoolCode
      isoNow epochNow =
      (read_records fs.final ++ [fallbackRecord epochNow f schoolName schoolCode isoNow],
        true) := by
    rw [reconcile, if_pos htr]
    simp only [Option.getD_some]
    rw [replaceFirst_missing _ _ _ hnomatch]
  refine ⟨?_, ?_, ?_, ?_⟩
  · rw [submitAction, if_pos hval]
    simp only [hrec]
  all_goals simp [getField, fallbackRecord, baseFields]

theorem c3_stale_edit_fallback_witness :
    submitAction (write_records [[("id", "1")]]) (some "999")
        ⟨"12", "Pap", "Nik", "Geo", "", "", "Akro", "5", "12345", "Athens"⟩
        "S" "C" "T" 100 =
      (write_records (read_records (write_records [[("id", "1")]]).final ++
          [fallbackRecord 100 ⟨"12", "Pap", "Nik", "Geo", "", "", "Akro", "5", "12345", "Athens"⟩
            "S" "C" "T"]),
        SaveOutcome.saved true) :=
  (c3_stale_edit_fallback (write_records [[("id", "1")]]) "999"
    ⟨"12", "Pap", "Nik", "Geo", "", "", "Akro", "5", "12345", "Athens"⟩
    "S" "C" "T" 100 (by decide) (by decide)
    (by rw [read_write_roundtrip]; decide)).1

/-- C9 as frozen is false on the code: deletion removes every record whose
identifier matches, not exactly one — a set with a duplicated identifier
loses all its copies.  Here a three-record set with identifier 5 twice
shrinks to one record, not two. -/
theorem c9_counterexample :
    read_records (write_records [[("id", "5")], [("id", "5")], [("id", "6")]]).final =
      [[("id", "5")], [("id", "5")], [("id", "6")]] ∧
    read_records (deleteConfirm
        (write_records [[("id", "5")], [("id", "5")], [("id", "6")]]) "5").final =
      [[("id", "6")]] := by
  constructor
  · exact read_write_roundtrip _
  · rw [deleteConfirm, read_write_roundtrip, read_write_roundtrip]
    decide

/-- C9 amended: confirmed deletion removes every record whose identifier
equals the target, keeping the others in order; when the identifier occurs
exactly once — the intended invariant — exactly that record is removed. -/
theorem c9_delete_by_id (fs : FS) (pre post : List Record) (r0 : Record) (rid : String)
    (hfs : read_records fs.final = pre ++ r0 :: post)
    (hmatch : pyStr (getField r0 "id") = rid)
    (hpre : ∀ q ∈ pre, pyStr (getField q "id") ≠ rid)
    (hpost : ∀ q ∈ post, pyStr (getField q "id") ≠ rid) :
    read_records (deleteConfirm fs rid).final = pre ++ post := by
  rw [deleteConfirm, read_write_roundtrip, hfs, List.filter_append, List.filter_cons]
  have hr0 : (pyStr (getField r0 "id") != rid) = false := by
    simp [bne_iff_ne, hmatch]
  rw [hr0]
  have hkeep : ∀ (l : List Record), (∀ q ∈ l, pyStr (getField q "id") ≠ rid) →
      l.filter (fun r => pyStr (getField r "id") != rid) = l := by
    intro l hl
    apply List.filter_eq_self.mpr
    intro a ha
    simp [bne_iff_ne]
    exact hl a ha
  rw [hkeep pre hpre, hkeep post hpost]
  simp

theorem c9_delete_by_id_witness :
    read_records (deleteConfirm (write_records [[("id", "5")], [("id", "6")]]) "5").final =
      [] ++ [[("id", "6")]] :=
  c9_delete_by_id (write_records [[("id", "5")], [("id", "6")]]) [] [[("id", "6")]]
    [("id", "5")] "5" (by rw [read_write_roundtrip]; rfl) (by decide) (by decide) (by decide)

theorem addCols_nil_created (n : Nat) (f : FormInput) (sn sc t : String) :
    addCols [] (createdRecord n f sn sc t) = appRecordKeys ++ ["created_at"] := by
  simp [addCols, createdRecord, baseFields, appRecordKeys, List.contains_cons]

theorem addCols_full_created (n : Nat) (f : FormInput) (sn sc t : String) :
    addCols (appRecordKeys ++ ["created_at"]) (createdRecord n f sn sc t) =
      appRecordKeys ++ ["created_at"] := by
  simp [addCols, createdRecord, baseFields, appRecordKeys, List.contains_cons]

theorem foldl_addCols_created (rs : List Record)
    (hall : ∀ r ∈ rs, ∃ n f sn sc t, r = createdRecord n f sn sc t) :
    rs.foldl addCols (appRecordKeys ++ ["created_at"]) = appRecordKeys ++ ["created_at"] := by
  induction rs with
  | nil => rfl
  | cons r rs ih =>
    obtain ⟨n, f, sn, sc, t, hr⟩ := hall r (List.mem_cons_self r rs)
    rw [List.foldl_cons, hr, addCols_full_created]
    exact ih (fun x hx => hall x (List.mem_cons_of_mem r hx))

theorem collectCols_created (rs : List Record) (hne : rs ≠ [])
    (hall : ∀ r ∈ rs, ∃ n f sn sc t, r = createdRecord n f sn sc t) :
    collectCols rs = appRecordKeys ++ ["created_at"] := by
  match rs with
  | [] => exact absurd rfl hne
  | r :: rs =>
    obtain ⟨n, f, sn, sc, t, hr⟩ := hall r (List.mem_cons_self r rs)
    rw [collectCols, List.foldl_cons, hr, addCols_nil_created]
    exact foldl_addCols_created rs (fun x hx => hall x (List.mem_cons_of_mem r hx))

/-- C8 as frozen is false on the code: `export_to_excel_bytes` exports the
DataFrame built straight from the records, so the header row is the raw
field keys in dict order — `id` comes first, not the claimed
registry-number-first fixed ordering (that ordering, with localized labels,
is applied only to the on-screen table, not to the export). -/
theorem c8_counterexample :
    (exportTable [createdRecord 100
        ⟨"12", "Pap", "Nik", "Geo", "", "", "Akro", "5", "12345", "Athens"⟩
        "S" "C" "T"]).2.1 = appRecordKeys ++ ["created_at"] ∧
    (exportTable [createdRecord 100
        ⟨"12", "Pap", "Nik", "Geo", "", "", "Akro", "5", "12345", "Athens"⟩
        "S" "C" "T"]).2.1.head? = some "id" ∧
    some "id" ≠ some "registry_number" := by
  have h1 : (exportTable [createdRecord 100
      ⟨"12", "Pap", "Nik", "Geo", "", "", "Akro", "5", "12345", "Athens"⟩
      "S" "C" "T"]).2.1 = appRecordKeys ++ ["created_at"] :=
    collectCols_created _ (by simp)
      (fun r hr => ⟨100, ⟨"12", "Pap", "Nik", "Geo", "", "", "Akro", "5", "12345", "Athens"⟩,
        "S", "C", "T", by simpa using hr⟩)
  refine ⟨h1, by rw [h1]; rfl, by decide⟩

/-- C8 amended: the export is a single sheet named Students with one data
row per record; each row lists the record's values in header order, and the
header is the raw field keys in order of first appearance — for a set of
app-created records that is `id` first, then the form fields in dict order,
then the timestamp — not the display ordering or localized labels the claim
describes. -/
theorem c8_export_layout (records : List Record) :
    (exportTable records).1 = "Students" ∧
    (exportTable records).2.2.length = records.length ∧
    (exportTable records).2.2 =
      records.map (fun r => (exportTable records).2.1.map (fun c => getField r c)) ∧
    (records ≠ [] → (∀ r ∈ records, ∃ n f sn sc t, r = createdRecord n f sn sc t) →
      (exportTable records).2.1 = appRecordKeys ++ ["created_at"]) :=
  ⟨rfl, by simp [exportTable], rfl,
    fun hne hall => collectCols_created records hne hall⟩

theorem c8_export_layout_witness :
    (exportTable [createdRecord 1
        ⟨"1", "a", "b", "c", "", "", "d", "e", "f", "g"⟩ "S" "C" "T"]).2.1 =
      appRecordKeys ++ ["created_at"] :=
  (c8_export_layout [createdRecord 1 ⟨"1", "a", "b", "c", "", "", "d", "e", "f", "g"⟩
      "S" "C" "T"]).2.2.2 (by simp)
    (fun r hr => ⟨1, ⟨"1", "a", "b", "c", "", "", "d", "e", "f", "g"⟩, "S", "C", "T",
      by simpa using hr⟩)

end W
